import Mathlib

/-!
A shallow embedding of `src/ConfigDaev/emulator.py`: the in-memory virtual
filesystem built from a zip archive's entry list (`VirtualFileSystem`) and the
command shell dispatch (`VirtualShell.process_command`), together with proofs
about them.  Python dicts are modelled as association lists in insertion order
(`assocGet` / `assocSet` mirror `d[k]` lookup and `d[k] = v` update, and
`setdefault` appends at the end, as a Python dict does).  Python exceptions are
modelled by the `Except` monad with the `PyExc` exception type.
-/

namespace ConfigDaev

/-! ### Python string primitives used by the source -/

/-- `str.split(sep)` for a one-character separator: splits at every occurrence
of a character satisfying `p`, keeping empty pieces, so that
`"".split("/") = [""]` and `"/".split("/") = ["", ""]`. -/
def splitChars (p : Char → Bool) : List Char → List (List Char)
  | [] => [[]]
  | c :: cs =>
    match splitChars p cs with
    | [] => [[]]
    | h :: t => if p c then [] :: h :: t else (c :: h) :: t

/-- `s.split("/")` from Python. -/
def splitOnSlash (s : String) : List String :=
  (splitChars (fun c => c == '/') s.data).map (fun l => String.mk l)

/-- `s.split()` from Python: split on whitespace runs, discarding empties. -/
def pySplitWs (s : String) : List String :=
  ((splitChars Char.isWhitespace s.data).map (fun l => String.mk l)).filter
    (fun w => w ≠ "")

/-- `s.strip("/")` from Python: remove all leading and trailing `/`. -/
def stripSlashes (s : String) : String :=
  String.mk (((s.data.dropWhile (fun c => c == '/')).reverse.dropWhile
    (fun c => c == '/')).reverse)

/-- `"/".join(l)` from Python. -/
def joinSlash : List String → String
  | [] => ""
  | [s] => s
  | s :: rest => s ++ "/" ++ joinSlash rest

/-- `s.splitlines()` from Python, for contents whose only line-break character
is `\n` (the general Python version also breaks on `\r` and a few other
characters, which do not occur in any content this development evaluates):
split on `\n` and drop one trailing empty piece, so `"" → []`,
`"hello" → ["hello"]`, `"a\n" → ["a"]`. -/
def pySplitLines (s : String) : List String :=
  let parts := (splitChars (fun c => c == '\n') s.data).map (fun l => String.mk l)
  if parts.getLastD "" = "" then parts.dropLast else parts

/-! ### Dicts and exceptions -/

/-- A value of the Python tree `self.fs`: each key maps to either a nested
dict (a folder) or `None` (a file). -/
inductive PyNode where
  | dict (entries : List (String × PyNode))
  | null

/-- `d[k]` lookup in a dict modelled as an insertion-ordered association
list. -/
def assocGet {α : Type} : List (String × α) → String → Option α
  | [], _ => none
  | (k, v) :: rest, key => if k = key then some v else assocGet rest key

/-- `d[k] = v`: replace in place if the key exists, else append (also the
effect of `d.setdefault(k, v)` for an absent key). -/
def assocSet {α : Type} : List (String × α) → String → α → List (String × α)
  | [], key, v => [(key, v)]
  | (k, w) :: rest, key, v =>
    if k = key then (key, v) :: rest else (k, w) :: assocSet rest key v

/-- The Python exceptions the emulator can raise. -/
inductive PyExc where
  | fileNotFound (msg : String)
  | keyError (key : String)
  | typeError (msg : String)
  | attributeError (msg : String)
deriving DecidableEq

/-- `str(e)` for a `PyExc` (Python renders `KeyError('k')` as `'k'`). -/
def pyStr : PyExc → String
  | .fileNotFound m => m
  | .keyError k => "'" ++ k ++ "'"
  | .typeError m => m
  | .attributeError m => m

/-! ### VirtualFileSystem -/

/-- The state of `VirtualFileSystem`: the current directory string, the nested
dict `self.fs` (given by the root dict's entries) and the content table
`self.files_content`. -/
structure VirtualFileSystem where
  current_dir : String
  fs : List (String × PyNode)
  files_content : List (String × String)

/-- The loop in `list_dir` —
`for part in ...: if part: dirs = dirs[part]` — walking the tree one
segment at a time.  `dirs[part]` on a dict missing the key raises `KeyError`;
on `None` it raises `TypeError`. -/
def walkParts : PyNode → List String → Except PyExc PyNode
  | d, [] => .ok d
  | d, p :: rest =>
    if p = "" then walkParts d rest
    else
      match d with
      | .dict entries =>
        match assocGet entries p with
        | some v => walkParts v rest
        | none => .error (.keyError p)
      | .null => .error (.typeError "'NoneType' object is not subscriptable")

/-- Python's `<=` on strings: lexicographic comparison by Unicode code
point. -/
def charLe : List Char → List Char → Bool
  | [], _ => true
  | _ :: _, [] => false
  | a :: as, b :: bs =>
    if a < b then true else if b < a then false else charLe as bs

/-- Python string comparison lifted to `String`. -/
def pyLe (a b : String) : Bool := charLe a.data b.data

/-- `sorted(...)` on a list of strings (ascending, stable, comparing by
Unicode code point as Python does). -/
def sortStrings (l : List String) : List String :=
  l.insertionSort (fun a b => pyLe a b)

/-- `[name for name in dirs.keys() if isinstance(dirs[name], dict)]`. -/
def dictFolders (entries : List (String × PyNode)) : List String :=
  (entries.map Prod.fst).filter (fun n =>
    match assocGet entries n with
    | some (.dict _) => true
    | _ => false)

/-- `[name for name in dirs.keys() if dirs[name] is None]`. -/
def dictFiles (entries : List (String × PyNode)) : List String :=
  (entries.map Prod.fst).filter (fun n =>
    match assocGet entries n with
    | some .null => true
    | _ => false)

/-- `VirtualFileSystem.list_dir`: resolve `self.current_dir` against the tree,
then return sorted folder names followed by sorted file names.  Calling
`.keys()` on a `None` leaf raises `AttributeError`. -/
def VirtualFileSystem.list_dir (vfs : VirtualFileSystem) :
    Except PyExc (List String) :=
  match walkParts (.dict vfs.fs) (splitOnSlash (stripSlashes vfs.current_dir)) with
  | .error e => .error e
  | .ok (.dict entries) =>
    .ok (sortStrings (dictFolders entries) ++ sortStrings (dictFiles entries))
  | .ok .null => .error (.attributeError "'NoneType' object has no attribute 'keys'")

/-- `VirtualFileSystem.change_dir`.  Note that on success the new segment is
appended as `self.current_dir += f"/{path}".strip("/")` — the `strip("/")`
removes the separator slash again, so the appended text is the bare name.
A raise happens before any assignment, so on error the state is unchanged,
which the `Except` embedding captures by returning no new state. -/
def VirtualFileSystem.change_dir (vfs : VirtualFileSystem) (path : String) :
    Except PyExc VirtualFileSystem :=
  if path = ".." then
    let cur := joinSlash ((splitOnSlash vfs.current_dir).dropLast)
    .ok (VirtualFileSystem.mk (if cur = "" then "/" else cur) vfs.fs
      vfs.files_content)
  else
    match vfs.list_dir with
    | .error e => .error e
    | .ok listing =>
      if path ∈ listing then
        .ok (VirtualFileSystem.mk
          (vfs.current_dir ++ stripSlashes ("/" ++ path)) vfs.fs
          vfs.files_content)
      else .error (.fileNotFound ("No such directory: " ++ path))

/-- `VirtualFileSystem.current_path`. -/
def VirtualFileSystem.current_path (vfs : VirtualFileSystem) : String :=
  vfs.current_dir

/-- `VirtualFileSystem.read_file`. -/
def VirtualFileSystem.read_file (vfs : VirtualFileSystem) (file_path : String) :
    Except PyExc (List String) :=
  let full_path := stripSlashes (stripSlashes vfs.current_dir ++ "/" ++ file_path)
  match assocGet vfs.files_content full_path with
  | some content => .ok (pySplitLines content)
  | none => .error (.fileNotFound ("No such file: " ++ file_path))

/-! ### Loading the archive -/

/-- The body of the per-entry loop in `load_zip`: walk `parts[:-1]` with
`d = d.setdefault(part, {})`, then `d[parts[-1]] = None` when the last part is
non-empty.  `setdefault` on a key bound to `None` returns `None`, and the next
operation on it raises (`AttributeError` for a further `setdefault`,
`TypeError` for an item assignment). -/
def setPath (entries : List (String × PyNode)) :
    List String → String → Except PyExc (List (String × PyNode))
  | [], last =>
    if last ≠ "" then .ok (assocSet entries last .null) else .ok entries
  | p :: rest, last =>
    match assocGet entries p with
    | some (.dict sub) =>
      match setPath sub rest last with
      | .error e => .error e
      | .ok sub2 => .ok (assocSet entries p (.dict sub2))
    | some .null =>
      match rest with
      | [] =>
        if last ≠ "" then
          .error (.typeError "'NoneType' object does not support item assignment")
        else .ok entries
      | _ :: _ =>
        .error (.attributeError "'NoneType' object has no attribute 'setdefault'")
    | none =>
      match setPath [] rest last with
      | .error e => .error e
      | .ok sub2 => .ok (assocSet entries p (.dict sub2))

/-- One iteration of `for file in z.namelist()` in `load_zip`: an archive entry
is a pair of its name and its decoded text content. -/
def load_step (vfs : VirtualFileSystem) (entry : String × String) :
    Except PyExc VirtualFileSystem :=
  let parts := splitOnSlash entry.fst
  match setPath vfs.fs parts.dropLast (parts.getLastD "") with
  | .error e => .error e
  | .ok fs2 =>
    .ok (VirtualFileSystem.mk vfs.current_dir fs2
      (if parts.getLastD "" ≠ "" then
        assocSet vfs.files_content entry.fst entry.snd
      else vfs.files_content))

/-- The entry loop of `load_zip`, processing entries in archive order. -/
def load_list : VirtualFileSystem → List (String × String) →
    Except PyExc VirtualFileSystem
  | vfs, [] => .ok vfs
  | vfs, e :: rest =>
    match load_step vfs e with
    | .error ex => .error ex
    | .ok vfs2 => load_list vfs2 rest

/-- `VirtualFileSystem.__init__` + `load_zip`: start from `current_dir = "/"`,
empty tree and content table, and process the archive's `(name, decoded
content)` entries in order. -/
def load_zip (entries : List (String × String)) :
    Except PyExc VirtualFileSystem :=
  load_list (VirtualFileSystem.mk "/" [] []) entries

/-! ### VirtualShell -/

/-- The state `process_command` works on: the filesystem object and the
module-wide `command_history` list. -/
structure ShellState where
  vfs : VirtualFileSystem
  command_history : List String

/-- `handle_history`: `print(i + 1, " ", command_history[i])` for each `i`.
`print` joins its arguments with a single space, so each line is the decimal
1-based index, then three spaces (default separator, the one-space literal
argument, default separator), then the raw command text. -/
def handle_history (history : List String) : List String :=
  history.enum.map (fun p => toString (p.fst + 1) ++ " " ++ " " ++ " " ++ p.snd)

/-- The `try:` body of `process_command`, dispatching on the first token.
Each returned string is the argument of one `print` call.  The local-time
string `handle_date` would print is an external input, passed in as `now`. -/
def dispatch (now : String) (st : ShellState) (parts : List String) :
    Except PyExc (ShellState × List String) :=
  match parts with
  | [] => .ok (st, [])
  | cmd :: rest =>
    if cmd = "ls" then
      match st.vfs.list_dir with
      | .error e => .error e
      | .ok l => .ok (st, [String.intercalate "\n" l])
    else if cmd = "pwd" then .ok (st, [st.vfs.current_path])
    else if cmd = "cd" then
      match rest with
      | arg :: _ =>
        match st.vfs.change_dir arg with
        | .error e => .error e
        | .ok v => .ok (ShellState.mk v st.command_history, [])
      | [] => .ok (st, ["Usage: cd <directory>"])
    else if cmd = "history" then .ok (st, handle_history st.command_history)
    else if cmd = "date" then .ok (st, [now])
    else .ok (st, ["Command not found: " ++ cmd])

/-- `VirtualShell.process_command`: split the line on whitespace, append the
raw line to `command_history`, return silently when the split is empty,
otherwise dispatch on the first token and catch every raised exception —
`FileNotFoundError` prints its message, any other exception prints with an
`Error: ` prefix.  In the source no state mutation precedes any `raise`, so
on a caught exception the state is the history-appended state, unchanged. -/
def process_command (now : String) (st : ShellState) (command : String) :
    ShellState × List String :=
  let parts := pySplitWs command
  let st1 := ShellState.mk st.vfs (st.command_history ++ [command])
  if parts.isEmpty then (st1, [])
  else
    match dispatch now st1 parts with
    | .ok r => r
    | .error (.fileNotFound m) => (st1, [m])
    | .error e => (st1, ["Error: " ++ pyStr e])

/-! ### Derived path notions -/

/-- The slash-separated absolute path of a list of segments: `pathOfSegs [] =
"/"`, `pathOfSegs ["a", "b"] = "/a/b"`.  This is the path shape the spec
talks about. -/
def pathOfSegs (segs : List String) : String := "/" ++ joinSlash segs

/-! ### Concrete fixtures used to instantiate the theorems -/

/-- The tree loaded from an archive whose only entry is the directory marker
`a/b/`. -/
def nestedFs : List (String × PyNode) :=
  [("a", PyNode.dict [("b", PyNode.dict [])])]

/-- The archive of the round-trip scenario: a root file and `dir/file2.txt`
with content `hello`. -/
def roundTripArchive : List (String × String) :=
  [("file1.txt", "x"), ("dir/file2.txt", "hello")]

/-- The tree `load_zip roundTripArchive` builds. -/
def roundTripFs : List (String × PyNode) :=
  [("file1.txt", PyNode.null), ("dir", PyNode.dict [("file2.txt", PyNode.null)])]

/-- The content table `load_zip roundTripArchive` builds. -/
def roundTripContent : List (String × String) :=
  [("file1.txt", "x"), ("dir/file2.txt", "hello")]

/-- A root directory holding `b.txt`, `a.txt` and the folder `dir1`. -/
def listingFs : List (String × PyNode) :=
  [("b.txt", PyNode.null), ("a.txt", PyNode.null), ("dir1", PyNode.dict [])]

/-- A tree in which changing into the file `d/f.txt` lands on the unrelated
root folder `df.txt` because the missing separator glues the names together. -/
def glueFs : List (String × PyNode) :=
  [("df.txt", PyNode.dict []), ("d", PyNode.dict [("f.txt", PyNode.null)])]

/-- A root directory holding a single file. -/
def fileOnlyFs : List (String × PyNode) := [("f.txt", PyNode.null)]

/-- A fresh shell on an empty filesystem with an empty history. -/
def shellStart : ShellState :=
  ShellState.mk (VirtualFileSystem.mk "/" [] []) []

/-- The state and output after running `ls`, `pwd`, `history` from
`shellStart`. -/
def historyRun : ShellState × List String :=
  process_command ""
    (process_command "" (process_command "" shellStart "ls").fst "pwd").fst
    "history"

/-! ### Association-list lemmas -/

theorem assocGet_mem {α : Type} {l : List (String × α)} {k : String} {v : α}
    (h : assocGet l k = some v) : (k, v) ∈ l := by
  induction l with
  | nil => simp [assocGet] at h
  | cons p rest ih =>
    obtain ⟨kp, vp⟩ := p
    by_cases hk : kp = k
    · subst hk
      simp [assocGet] at h
      simp [h]
    · simp [assocGet, hk] at h
      exact List.mem_cons_of_mem _ (ih h)

theorem mem_keys_assocGet {α : Type} {l : List (String × α)} {k : String}
    (h : k ∈ l.map Prod.fst) : ∃ v, assocGet l k = some v := by
  induction l with
  | nil => simp at h
  | cons p rest ih =>
    obtain ⟨kp, vp⟩ := p
    by_cases hk : kp = k
    · subst hk
      exact ⟨vp, by simp [assocGet]⟩
    · have hk2 : k ∈ rest.map Prod.fst := by
        rcases (by simpa using h : k = kp ∨ k ∈ rest.map Prod.fst) with h1 | h1
        · exact absurd h1.symm hk
        · exact h1
      obtain ⟨v, hv⟩ := ih hk2
      exact ⟨v, by simp [assocGet, hk, hv]⟩

theorem assocGet_assocSet_self {α : Type} (l : List (String × α)) (k : String)
    (v : α) : assocGet (assocSet l k v) k = some v := by
  induction l with
  | nil => simp [assocSet, assocGet]
  | cons p rest ih =>
    obtain ⟨kp, vp⟩ := p
    by_cases hk : kp = k
    · simp [assocSet, hk, assocGet]
    · simp [assocSet, hk, assocGet, ih]

theorem assocGet_assocSet_other {α : Type} {l : List (String × α)}
    {k k2 : String} (v : α) (h : k2 ≠ k) :
    assocGet (assocSet l k v) k2 = assocGet l k2 := by
  induction l with
  | nil => simp [assocSet, assocGet, Ne.symm h]
  | cons p rest ih =>
    obtain ⟨kp, vp⟩ := p
    by_cases hk : kp = k
    · subst hk
      simp [assocSet, assocGet, Ne.symm h]
    · simp only [assocSet, if_neg hk]
      by_cases hk2 : kp = k2
      · simp [assocGet, hk2]
      · simp [assocGet, hk2, ih]

theorem mem_keys_assocSet_of_mem {α : Type} {l : List (String × α)}
    {k2 : String} (k : String) (v : α) (h : k2 ∈ l.map Prod.fst) :
    k2 ∈ (assocSet l k v).map Prod.fst := by
  induction l with
  | nil => simp at h
  | cons p rest ih =>
    obtain ⟨kp, vp⟩ := p
    by_cases hk : kp = k
    · subst hk
      simpa [assocSet] using h
    · simp [assocSet, hk] at h ⊢
      rcases h with h | h
      · exact Or.inl h
      · exact Or.inr (by simpa using ih (by simpa using h))

theorem mem_keys_assocSet_self {α : Type} (l : List (String × α)) (k : String)
    (v : α) : k ∈ (assocSet l k v).map Prod.fst := by
  induction l with
  | nil => simp [assocSet]
  | cons p rest ih =>
    obtain ⟨kp, vp⟩ := p
    by_cases hk : kp = k
    · simp [assocSet, hk]
    · simp [assocSet, hk]
      exact Or.inr (by simpa using ih)

/-! ### The Python string order is a total preorder -/

theorem charLe_total (as bs : List Char) : charLe as bs = true ∨ charLe bs as = true := by
  induction as generalizing bs with
  | nil => exact Or.inl rfl
  | cons a as ih =>
    cases bs with
    | nil => exact Or.inr rfl
    | cons b bs =>
      by_cases hab : a < b
      · exact Or.inl (by simp [charLe, hab])
      · by_cases hba : b < a
        · exact Or.inr (by simp [charLe, hba, lt_asymm hba])
        · rcases ih bs with h | h
          · exact Or.inl (by simp [charLe, hab, hba, h])
          · exact Or.inr (by simp [charLe, hab, hba, h])

theorem charLe_trans {as bs cs : List Char} (h1 : charLe as bs = true)
    (h2 : charLe bs cs = true) : charLe as cs = true := by
  induction as generalizing bs cs with
  | nil => rfl
  | cons a as ih =>
    cases bs with
    | nil => simp [charLe] at h1
    | cons b bs =>
      cases cs with
      | nil => simp [charLe] at h2
      | cons c cs =>
        by_cases hab : a < b
        · by_cases hbc : b < c
          · simp [charLe, lt_trans hab hbc]
          · by_cases hcb : c < b
            · simp [charLe, hbc, hcb] at h2
            · have : b = c := le_antisymm (not_lt.mp hcb) (not_lt.mp hbc)
              subst this
              simp [charLe, hab]
        · by_cases hba : b < a
          · simp [charLe, hab, hba] at h1
          · have hab2 : a = b := le_antisymm (not_lt.mp hba) (not_lt.mp hab)
            subst hab2
            simp only [charLe, if_neg hab, if_neg hba] at h1
            by_cases hbc : a < c
            · simp [charLe, hbc]
            · by_cases hcb : c < a
              · simp [charLe, hbc, hcb] at h2
              · simp only [charLe, if_neg hbc, if_neg hcb] at h2 ⊢
                exact ih h1 h2

theorem pyLe_total : ∀ a b : String, pyLe a b = true ∨ pyLe b a = true :=
  fun a b => charLe_total a.data b.data

theorem pyLe_trans : ∀ {a b c : String}, pyLe a b = true → pyLe b c = true →
    pyLe a c = true :=
  fun h1 h2 => charLe_trans h1 h2

/-! ### Lemmas about the string splitters -/

theorem splitChars_ne_nil (p : Char → Bool) (l : List Char) :
    splitChars p l ≠ [] := by
  cases l with
  | nil => simp [splitChars]
  | cons c cs =>
    simp only [splitChars]
    rcases h : splitChars p cs with _ | ⟨h1, t⟩
    · simp
    · by_cases hp : p c <;> simp [hp]

theorem splitChars_cons_pos {p : Char → Bool} {c : Char} (l : List Char)
    (hp : p c = true) : splitChars p (c :: l) = [] :: splitChars p l := by
  simp only [splitChars]
  rcases h : splitChars p l with _ | ⟨h1, t⟩
  · exact absurd h (splitChars_ne_nil p l)
  · simp [hp]

theorem splitChars_cons_neg {p : Char → Bool} {c : Char} {l : List Char}
    {h1 : List Char} {t : List (List Char)} (hp : p c = false)
    (h : splitChars p l = h1 :: t) :
    splitChars p (c :: l) = (c :: h1) :: t := by
  simp only [splitChars, h, hp]
  simp

theorem splitChars_append_all_neg {p : Char → Bool} {l1 l2 : List Char}
    (hneg : ∀ c ∈ l1, p c = false) {h1 : List Char} {t : List (List Char)}
    (h : splitChars p l2 = h1 :: t) :
    splitChars p (l1 ++ l2) = (l1 ++ h1) :: t := by
  induction l1 with
  | nil => simpa using h
  | cons c cs ih =>
    have hc : p c = false := hneg c (List.mem_cons_self c cs)
    have ihr := ih (fun d hd => hneg d (List.mem_cons_of_mem c hd))
    simpa using splitChars_cons_neg hc ihr

theorem splitChars_all_neg {p : Char → Bool} {l : List Char}
    (hneg : ∀ c ∈ l, p c = false) : splitChars p l = [l] := by
  have := @splitChars_append_all_neg p l [] hneg [] [] rfl
  simpa using this

/-! ### String-level path lemmas -/

theorem string_data_append (a b : String) : (a ++ b).data = a.data ++ b.data :=
  rfl

theorem string_mk_data (s : String) : String.mk s.data = s := rfl

theorem string_ne_empty_of_data {s : String} (h : s.data ≠ []) : s ≠ "" := by
  intro he
  subst he
  exact h rfl

theorem dropWhile_all_neg {p : Char → Bool} {l : List Char}
    (hneg : ∀ c ∈ l, p c = false) : l.dropWhile p = l := by
  cases l with
  | nil => rfl
  | cons c cs =>
    simp [List.dropWhile, hneg c (List.mem_cons_self c cs)]

theorem stripSlashes_slash_append {s : String}
    (hneg : ∀ c ∈ s.data, (c == '/') = false) : stripSlashes ("/" ++ s) = s := by
  have h1 : (("/" ++ s).data).dropWhile (fun c => c == '/') = s.data := by
    rw [show ("/" ++ s).data = '/' :: s.data from rfl]
    rw [List.dropWhile_cons]
    simp only [show (('/' : Char) == '/') = true from rfl, if_true]
    exact dropWhile_all_neg hneg
  have h2 : (s.data.reverse).dropWhile (fun c => c == '/') = s.data.reverse :=
    dropWhile_all_neg (fun c hc => hneg c (List.mem_reverse.mp hc))
  simp only [stripSlashes, h1, h2, List.reverse_reverse]

theorem splitOnSlash_no_slash {s : String}
    (hneg : ∀ c ∈ s.data, (c == '/') = false) : splitOnSlash s = [s] := by
  simp [splitOnSlash, splitChars_all_neg hneg]

theorem joinSlash_cons (s : String) {rest : List String} (h : rest ≠ []) :
    joinSlash (s :: rest) = s ++ "/" ++ joinSlash rest := by
  cases rest with
  | nil => exact absurd rfl h
  | cons r rs => rfl

theorem splitChars_joinSlash {segs : List String} (hne : segs ≠ [])
    (hok : ∀ s ∈ segs, ∀ c ∈ s.data, (c == '/') = false) :
    (splitChars (fun c => c == '/') (joinSlash segs).data).map
      (fun l => String.mk l) = segs := by
  induction segs with
  | nil => exact absurd rfl hne
  | cons s rest ih =>
    cases rest with
    | nil =>
      simp only [joinSlash]
      rw [splitChars_all_neg (hok s (List.mem_cons_self s []))]
      simp
    | cons r rs =>
      have hrest : (r :: rs : List String) ≠ [] := by simp
      rw [joinSlash_cons s hrest]
      have hdata : (s ++ "/" ++ joinSlash (r :: rs)).data =
          s.data ++ ('/' :: (joinSlash (r :: rs)).data) := by
        simp [string_data_append]
      rw [hdata]
      have hstep : splitChars (fun c => c == '/')
          ('/' :: (joinSlash (r :: rs)).data) =
          [] :: splitChars (fun c => c == '/') (joinSlash (r :: rs)).data :=
        splitChars_cons_pos _ rfl
      rw [splitChars_append_all_neg (hok s (List.mem_cons_self s _)) hstep]
      have ihr := ih (by simp)
        (fun t ht => hok t (List.mem_cons_of_mem s ht))
      simpa using ihr

theorem splitOnSlash_pathOfSegs {segs : List String} (hne : segs ≠ [])
    (hok : ∀ s ∈ segs, ∀ c ∈ s.data, (c == '/') = false) :
    splitOnSlash (pathOfSegs segs) = "" :: segs := by
  have hdata : (pathOfSegs segs).data = '/' :: (joinSlash segs).data := by
    simp [pathOfSegs, string_data_append]
  simp only [splitOnSlash, hdata]
  rw [splitChars_cons_pos _ rfl]
  simp only [List.map_cons]
  rw [splitChars_joinSlash hne hok]

/-! ### Lemmas about loading -/

theorem assocGet_some_mem_keys {α : Type} {l : List (String × α)} {k : String}
    {v : α} (h : assocGet l k = some v) : k ∈ l.map Prod.fst :=
  List.mem_map.mpr ⟨(k, v), assocGet_mem h, rfl⟩

theorem load_step_current {v v2 : VirtualFileSystem} {e : String × String}
    (h : load_step v e = .ok v2) : v2.current_dir = v.current_dir := by
  simp only [load_step] at h
  split at h
  · simp at h
  · rw [Except.ok.injEq] at h
    subst h
    rfl

theorem load_list_current {l : List (String × String)} :
    ∀ {v v2 : VirtualFileSystem}, load_list v l = .ok v2 →
      v2.current_dir = v.current_dir := by
  induction l with
  | nil =>
    intro v v2 h
    simp only [load_list, Except.ok.injEq] at h
    subst h
    rfl
  | cons e rest ih =>
    intro v v2 h
    simp only [load_list] at h
    cases hstep : load_step v e with
    | error ex => rw [hstep] at h; simp at h
    | ok vmid =>
      rw [hstep] at h
      simp only [] at h
      rw [ih h, load_step_current hstep]

theorem setPath_keys {parts : List String} :
    ∀ {entries fs2 : List (String × PyNode)} {last k : String},
      setPath entries parts last = .ok fs2 →
      k ∈ entries.map Prod.fst → k ∈ fs2.map Prod.fst := by
  induction parts with
  | nil =>
    intro entries fs2 last k h hk
    simp only [setPath] at h
    by_cases hl : last ≠ ""
    · rw [if_pos hl, Except.ok.injEq] at h
      subst h
      exact mem_keys_assocSet_of_mem _ _ hk
    · rw [if_neg hl, Except.ok.injEq] at h
      subst h
      exact hk
  | cons p rest ih =>
    intro entries fs2 last k h hk
    simp only [setPath] at h
    split at h
    · split at h
      · simp at h
      · simp only [Except.ok.injEq] at h
        subst h
        exact mem_keys_assocSet_of_mem _ _ hk
    · split at h
      · split at h
        · simp at h
        · simp only [Except.ok.injEq] at h
          subst h
          exact hk
      · simp at h
    · split at h
      · simp at h
      · simp only [Except.ok.injEq] at h
        subst h
        exact mem_keys_assocSet_of_mem _ _ hk

theorem load_step_keys {v v2 : VirtualFileSystem} {e : String × String}
    {k : String} (h : load_step v e = .ok v2) (hk : k ∈ v.fs.map Prod.fst) :
    k ∈ v2.fs.map Prod.fst := by
  simp only [load_step] at h
  cases hset : setPath v.fs (splitOnSlash e.fst).dropLast
      ((splitOnSlash e.fst).getLastD "") with
  | error ex => rw [hset] at h; simp at h
  | ok fs2 =>
    rw [hset] at h
    simp only [Except.ok.injEq] at h
    subst h
    exact setPath_keys hset hk

theorem load_list_keys {l : List (String × String)} :
    ∀ {v v2 : VirtualFileSystem} {k : String}, load_list v l = .ok v2 →
      k ∈ v.fs.map Prod.fst → k ∈ v2.fs.map Prod.fst := by
  induction l with
  | nil =>
    intro v v2 k h hk
    simp only [load_list, Except.ok.injEq] at h
    subst h
    exact hk
  | cons e rest ih =>
    intro v v2 k h hk
    simp only [load_list] at h
    cases hstep : load_step v e with
    | error ex => rw [hstep] at h; simp at h
    | ok vmid =>
      rw [hstep] at h
      simp only [] at h
      exact ih h (load_step_keys hstep hk)

theorem load_step_content_other {v v2 : VirtualFileSystem}
    {e : String × String} {name : String} (h : load_step v e = .ok v2)
    (hne : e.fst ≠ name) :
    assocGet v2.files_content name = assocGet v.files_content name := by
  simp only [load_step] at h
  cases hset : setPath v.fs (splitOnSlash e.fst).dropLast
      ((splitOnSlash e.fst).getLastD "") with
  | error ex => rw [hset] at h; simp at h
  | ok fs2 =>
    rw [hset] at h
    simp only [Except.ok.injEq] at h
    subst h
    by_cases hlast : (splitOnSlash e.fst).getLastD "" ≠ ""
    · simp only [if_pos hlast]
      exact assocGet_assocSet_other _ (Ne.symm hne)
    · simp only [if_neg hlast]

theorem load_list_content_other {l : List (String × String)} :
    ∀ {v v2 : VirtualFileSystem} {name : String}, load_list v l = .ok v2 →
      (∀ e ∈ l, e.fst ≠ name) →
      assocGet v2.files_content name = assocGet v.files_content name := by
  induction l with
  | nil =>
    intro v v2 name h _
    simp only [load_list, Except.ok.injEq] at h
    subst h
    rfl
  | cons e rest ih =>
    intro v v2 name h hne
    simp only [load_list] at h
    cases hstep : load_step v e with
    | error ex => rw [hstep] at h; simp at h
    | ok vmid =>
      rw [hstep] at h
      simp only [] at h
      rw [ih h (fun x hx => hne x (List.mem_cons_of_mem e hx)),
        load_step_content_other hstep (hne e (List.mem_cons_self e rest))]

/-! ### Lemmas about the shell dispatcher -/

theorem dispatch_history {now : String} {st st2 : ShellState}
    {parts out : List String}
    (h : dispatch now st parts = .ok (st2, out)) :
    st2.command_history = st.command_history := by
  cases parts with
  | nil =>
    simp only [dispatch, Except.ok.injEq, Prod.mk.injEq] at h
    rw [← h.1]
  | cons cmd rest =>
    simp only [dispatch] at h
    split_ifs at h
    · cases hl : st.vfs.list_dir with
      | error e => rw [hl] at h; simp at h
      | ok l =>
        rw [hl] at h
        simp only [Except.ok.injEq, Prod.mk.injEq] at h
        rw [← h.1]
    · simp only [Except.ok.injEq, Prod.mk.injEq] at h
      rw [← h.1]
    · split at h
      · split at h
        · simp at h
        · simp only [Except.ok.injEq, Prod.mk.injEq] at h
          rw [← h.1]
      · simp only [Except.ok.injEq, Prod.mk.injEq] at h
        rw [← h.1]
    · simp only [Except.ok.injEq, Prod.mk.injEq] at h
      rw [← h.1]
    · simp only [Except.ok.injEq, Prod.mk.injEq] at h
      rw [← h.1]
    · simp only [Except.ok.injEq, Prod.mk.injEq] at h
      rw [← h.1]

/-! ### Sorting and listing lemmas -/

theorem sortStrings_sorted (l : List String) :
    List.Sorted (fun a b : String => pyLe a b = true) (sortStrings l) := by
  haveI ht : IsTotal String (fun a b : String => pyLe a b = true) :=
    ⟨pyLe_total⟩
  haveI htr : IsTrans String (fun a b : String => pyLe a b = true) :=
    ⟨fun _ _ _ => pyLe_trans⟩
  exact List.sorted_insertionSort _ l

theorem sortStrings_perm (l : List String) : (sortStrings l).Perm l :=
  List.perm_insertionSort _ l

theorem mem_sortStrings {a : String} {l : List String} :
    a ∈ sortStrings l ↔ a ∈ l :=
  (sortStrings_perm l).mem_iff

theorem list_dir_root {vfs : VirtualFileSystem} (h : vfs.current_dir = "/") :
    vfs.list_dir =
      .ok (sortStrings (dictFolders vfs.fs) ++ sortStrings (dictFiles vfs.fs)) := by
  have hw : walkParts (.dict vfs.fs)
      (splitOnSlash (stripSlashes vfs.current_dir)) = .ok (.dict vfs.fs) := by
    rw [h]
    rfl
  simp [VirtualFileSystem.list_dir, hw]

theorem mem_listing_of_key {entries : List (String × PyNode)} {k : String}
    (hk : k ∈ entries.map Prod.fst) :
    k ∈ sortStrings (dictFolders entries) ++ sortStrings (dictFiles entries) := by
  obtain ⟨v, hv⟩ := mem_keys_assocGet hk
  cases v with
  | dict sub =>
    exact List.mem_append_left _
      (mem_sortStrings.mpr (List.mem_filter.mpr ⟨hk, by simp [hv]⟩))
  | null =>
    exact List.mem_append_right _
      (mem_sortStrings.mpr (List.mem_filter.mpr ⟨hk, by simp [hv]⟩))

theorem folders_files_perm_keys (entries : List (String × PyNode)) :
    (dictFolders entries ++ dictFiles entries).Perm (entries.map Prod.fst) := by
  have hcongr : dictFiles entries = (entries.map Prod.fst).filter (fun n =>
      !(match assocGet entries n with
        | some (.dict _) => true
        | _ => false)) := by
    apply List.filter_congr
    intro n hn
    obtain ⟨v, hv⟩ := mem_keys_assocGet hn
    cases v <;> simp [hv]
  rw [dictFolders, hcongr]
  exact List.filter_append_perm _ _

/-! ### More loading lemmas -/

theorem load_list_append {l1 l2 : List (String × String)} :
    ∀ {v : VirtualFileSystem}, load_list v (l1 ++ l2) =
      match load_list v l1 with
      | .error e => .error e
      | .ok v2 => load_list v2 l2 := by
  induction l1 with
  | nil => intro v; simp [load_list]
  | cons e rest ih =>
    intro v
    simp only [List.cons_append, load_list]
    cases load_step v e with
    | error ex => rfl
    | ok vmid => simp [ih]

theorem setPath_single_key {entries fs2 : List (String × PyNode)}
    {p last : String} (hlast : last ≠ "")
    (h : setPath entries [p] last = .ok fs2) : p ∈ fs2.map Prod.fst := by
  simp only [setPath, if_pos hlast] at h
  split at h
  · simp only [Except.ok.injEq] at h
    subst h
    exact mem_keys_assocSet_self _ _ _
  · simp at h
  · simp only [Except.ok.injEq] at h
    subst h
    exact mem_keys_assocSet_self _ _ _

theorem load_step_target {v v2 : VirtualFileSystem}
    (h : load_step v ("dir/file2.txt", "hello") = .ok v2) :
    assocGet v2.files_content "dir/file2.txt" = some "hello" ∧
    "dir" ∈ v2.fs.map Prod.fst := by
  simp only [load_step] at h
  rw [show ((splitOnSlash "dir/file2.txt").dropLast : List String) = ["dir"] from rfl,
    show ((splitOnSlash "dir/file2.txt").getLastD "" : String) = "file2.txt" from rfl]
    at h
  split at h
  · simp at h
  · rename_i fs2 hset
    rw [if_pos (by decide : ("file2.txt" : String) ≠ "")] at h
    simp only [Except.ok.injEq] at h
    subst h
    exact ⟨assocGet_assocSet_self _ _ _,
      setPath_single_key (by decide) hset⟩

/-! ### Claim C1 -/

/-- C1: the claim states that after `change_dir s1, ..., change_dir sn` along
a segment chain present in the archive, `current_path` equals `/s1/.../sn`.
The code violates this: `change_dir` appends the bare segment without a
separator.  For an archive whose only entry is the directory marker `a/b/`,
`change_dir "a"` then `change_dir "b"` both succeed, but `current_path` ends
up `"/ab"`, not `"/a/b"`. -/
theorem c1_change_dir_drops_separator :
    load_zip [("a/b/", "")] = .ok (VirtualFileSystem.mk "/" nestedFs []) ∧
    (VirtualFileSystem.mk "/" nestedFs []).change_dir "a" =
      .ok (VirtualFileSystem.mk "/a" nestedFs []) ∧
    (VirtualFileSystem.mk "/a" nestedFs []).change_dir "b" =
      .ok (VirtualFileSystem.mk "/ab" nestedFs []) ∧
    (VirtualFileSystem.mk "/ab" nestedFs []).current_path = "/ab" ∧
    "/ab" ≠ pathOfSegs ["a", "b"] :=
  ⟨rfl, rfl, rfl, rfl, by decide⟩

/-! ### Claim C2 -/

/-- C2: the claim states that after any sequence of successful `change_dir`
calls the current directory still resolves to a valid node (so `list_dir`
cannot fail).  The code violates this: starting from the archive `[a/b/]`,
the two successful calls `change_dir "a"`, `change_dir "b"` leave the current
directory `"/ab"`, on which `list_dir` raises `KeyError` because the glued
name resolves to nothing. -/
theorem c2_reachable_state_unresolvable :
    load_zip [("a/b/", "")] = .ok (VirtualFileSystem.mk "/" nestedFs []) ∧
    (VirtualFileSystem.mk "/" nestedFs []).change_dir "a" =
      .ok (VirtualFileSystem.mk "/a" nestedFs []) ∧
    (VirtualFileSystem.mk "/a" nestedFs []).change_dir "b" =
      .ok (VirtualFileSystem.mk "/ab" nestedFs []) ∧
    (VirtualFileSystem.mk "/ab" nestedFs []).list_dir =
      .error (PyExc.keyError "ab") :=
  ⟨rfl, rfl, rfl, rfl⟩

/-! ### Claim C3 -/

/-- C3: round-trip through load and read.  If the archive contains the entry
`dir/file2.txt` with decoded content `"hello"` (entry names being distinct)
and loading succeeds, then from the root `change_dir "dir"` succeeds and
`read_file "file2.txt"` returns `["hello"]`. -/
theorem c3_round_trip_read (entries : List (String × String))
    (vfs : VirtualFileSystem)
    (hmem : ("dir/file2.txt", "hello") ∈ entries)
    (hnodup : (entries.map Prod.fst).Nodup)
    (hload : load_zip entries = .ok vfs) :
    vfs.change_dir "dir" =
      .ok (VirtualFileSystem.mk "/dir" vfs.fs vfs.files_content) ∧
    (VirtualFileSystem.mk "/dir" vfs.fs vfs.files_content).read_file
      "file2.txt" = .ok ["hello"] := by
  obtain ⟨pre, post, hsplit⟩ := List.append_of_mem hmem
  subst hsplit
  rw [load_zip, load_list_append] at hload
  cases hpre : load_list (VirtualFileSystem.mk "/" [] []) pre with
  | error ex => rw [hpre] at hload; simp at hload
  | ok vmid =>
    rw [hpre] at hload
    simp only [] at hload
    simp only [load_list] at hload
    cases hstep : load_step vmid ("dir/file2.txt", "hello") with
    | error ex => rw [hstep] at hload; simp at hload
    | ok v1 =>
      rw [hstep] at hload
      simp only [] at hload
      have hcur : vfs.current_dir = "/" := by
        rw [load_list_current hload, load_step_current hstep,
          load_list_current hpre]
      have htar := load_step_target hstep
      have hpost : ∀ x ∈ post, x.fst ≠ "dir/file2.txt" := by
        have h1 : ((pre ++ ("dir/file2.txt", "hello") :: post).map
            Prod.fst).Nodup := hnodup
        rw [List.map_append, List.map_cons] at h1
        have h2 := (List.nodup_append.mp h1).2.1
        have h3 := (List.nodup_cons.mp h2).1
        intro x hx he
        exact h3 (List.mem_map.mpr ⟨x, hx, he⟩)
      have hcontent : assocGet vfs.files_content "dir/file2.txt" =
          some "hello" := by
        rw [load_list_content_other hload hpost]
        exact htar.1
      have hkey : "dir" ∈ vfs.fs.map Prod.fst := load_list_keys hload htar.2
      have hlist := list_dir_root hcur
      have hmeml := mem_listing_of_key hkey
      constructor
      · simp only [VirtualFileSystem.change_dir,
          if_neg (by decide : ¬("dir" : String) = ".."), hlist]
        rw [if_pos hmeml, hcur]
        rfl
      · simp only [VirtualFileSystem.read_file]
        rw [show stripSlashes (stripSlashes "/dir" ++ "/" ++ "file2.txt") =
          "dir/file2.txt" from rfl]
        rw [hcontent]
        rfl

/-- Witness for C3 at the concrete archive
`["file1.txt" ↦ "x", "dir/file2.txt" ↦ "hello"]`. -/
theorem c3_round_trip_read_witness :
    (VirtualFileSystem.mk "/" roundTripFs roundTripContent).change_dir "dir" =
      .ok (VirtualFileSystem.mk "/dir" roundTripFs roundTripContent) ∧
    (VirtualFileSystem.mk "/dir" roundTripFs roundTripContent).read_file
      "file2.txt" = .ok ["hello"] :=
  c3_round_trip_read roundTripArchive
    (VirtualFileSystem.mk "/" roundTripFs roundTripContent)
    (by decide) (by decide) rfl

/-! ### Claim C4 -/

/-- C4: whenever the current directory resolves to a directory node,
`list_dir` returns the subdirectory names followed by the file names, each
group sorted ascending, and with the whole output a permutation of the
directory's keys (every child listed exactly once). -/
theorem c4_listing_folders_then_files (vfs : VirtualFileSystem)
    (entries : List (String × PyNode))
    (hw : walkParts (PyNode.dict vfs.fs)
      (splitOnSlash (stripSlashes vfs.current_dir)) =
      .ok (PyNode.dict entries)) :
    vfs.list_dir =
      .ok (sortStrings (dictFolders entries) ++ sortStrings (dictFiles entries)) ∧
    List.Sorted (fun a b : String => pyLe a b = true)
      (sortStrings (dictFolders entries)) ∧
    List.Sorted (fun a b : String => pyLe a b = true)
      (sortStrings (dictFiles entries)) ∧
    (sortStrings (dictFolders entries)).Perm (dictFolders entries) ∧
    (sortStrings (dictFiles entries)).Perm (dictFiles entries) ∧
    (sortStrings (dictFolders entries) ++
      sortStrings (dictFiles entries)).Perm (entries.map Prod.fst) := by
  refine ⟨?_, sortStrings_sorted _, sortStrings_sorted _, sortStrings_perm _,
    sortStrings_perm _, ?_⟩
  · simp [VirtualFileSystem.list_dir, hw]
  · exact ((sortStrings_perm _).append (sortStrings_perm _)).trans
      (folders_files_perm_keys entries)

/-- Witness for C4 at the concrete root directory holding `b.txt`, `a.txt`
and the folder `dir1`. -/
theorem c4_listing_folders_then_files_witness :
    (VirtualFileSystem.mk "/" listingFs []).list_dir =
      .ok (sortStrings (dictFolders listingFs) ++
        sortStrings (dictFiles listingFs)) ∧
    List.Sorted (fun a b : String => pyLe a b = true)
      (sortStrings (dictFolders listingFs)) ∧
    List.Sorted (fun a b : String => pyLe a b = true)
      (sortStrings (dictFiles listingFs)) ∧
    (sortStrings (dictFolders listingFs)).Perm (dictFolders listingFs) ∧
    (sortStrings (dictFiles listingFs)).Perm (dictFiles listingFs) ∧
    (sortStrings (dictFolders listingFs) ++
      sortStrings (dictFiles listingFs)).Perm (listingFs.map Prod.fst) :=
  c4_listing_folders_then_files (VirtualFileSystem.mk "/" listingFs [])
    listingFs rfl

/-! ### Claim C5 -/

/-- C5: for a name that is neither `".."` nor present in the current listing,
`change_dir` raises `FileNotFoundError` (the code's `DirectoryNotFound`) with
the message `No such directory: <name>`; no new state is produced, so the
current directory is unchanged (in the source the `raise` precedes any
assignment). -/
theorem c5_missing_name_raises (vfs : VirtualFileSystem)
    (listing : List String) (name : String)
    (hl : vfs.list_dir = .ok listing) (hn : name ∉ listing)
    (hne : name ≠ "..") :
    vfs.change_dir name =
      .error (.fileNotFound ("No such directory: " ++ name)) := by
  simp only [VirtualFileSystem.change_dir, if_neg hne, hl]
  rw [if_neg hn]

/-- Witness for C5: `change_dir "missing"` on an empty root. -/
theorem c5_missing_name_raises_witness :
    (VirtualFileSystem.mk "/" [] []).change_dir "missing" =
      .error (.fileNotFound ("No such directory: " ++ "missing")) :=
  c5_missing_name_raises (VirtualFileSystem.mk "/" [] []) [] "missing" rfl
    (by decide) (by decide)

/-! ### Claim C6 -/

/-- C6: `change_dir ".."` pops the last path segment, clamped at the root:
if the current directory is `/s1/.../sn` then the result is
`/s1/.../s(n-1)`, and in particular at the root (`segs = []`, path `/`) the
path stays `/`.  The tree and content table are untouched. -/
theorem c6_parent_clamped_at_root (vfs : VirtualFileSystem)
    (segs : List String)
    (hseg : ∀ s ∈ segs, ∀ c ∈ s.data, (c == '/') = false)
    (hcur : vfs.current_dir = pathOfSegs segs) :
    vfs.change_dir ".." =
      .ok (VirtualFileSystem.mk (pathOfSegs segs.dropLast) vfs.fs
        vfs.files_content) := by
  have key : (if joinSlash ((splitOnSlash (pathOfSegs segs)).dropLast) = ""
      then "/" else joinSlash ((splitOnSlash (pathOfSegs segs)).dropLast)) =
      pathOfSegs segs.dropLast := by
    cases segs with
    | nil => decide
    | cons s rest =>
      rw [splitOnSlash_pathOfSegs (by simp) hseg]
      rw [show (("" :: s :: rest : List String)).dropLast =
        "" :: (s :: rest).dropLast from rfl]
      cases hdl : (s :: rest).dropLast with
      | nil => decide
      | cons d ds =>
        rw [joinSlash_cons "" (by simp)]
        have hne3 : ("" ++ "/" ++ joinSlash (d :: ds)) ≠ "" :=
          string_ne_empty_of_data (by simp [string_data_append])
        rw [if_neg hne3]
        exact rfl
  simp only [VirtualFileSystem.change_dir]
  rw [hcur]
  simp only [if_true]
  rw [key]

/-- Witness for C6: popping from `/a/b` yields `/a`; the result is stated
through `pathOfSegs` exactly as in the theorem (`pathOfSegs ["a"] = "/a"`). -/
theorem c6_parent_clamped_at_root_witness :
    (VirtualFileSystem.mk "/a/b" nestedFs []).change_dir ".." =
      .ok (VirtualFileSystem.mk (pathOfSegs (["a", "b"].dropLast)) nestedFs
        []) :=
  c6_parent_clamped_at_root (VirtualFileSystem.mk "/a/b" nestedFs [])
    ["a", "b"] (by decide) rfl

/-! ### Claim C7 -/

/-- C7 counterexample: running `ls`, `pwd`, `history` from an empty history
does print the three commands at 1-based indices 1, 2, 3, but the separator
between index and command text is three characters (`print`'s default space,
the literal one-space argument, another default space), not the claimed
two-character separator: the first line `"1   ls"` has length `1 + 3 + 2 = 6`,
while any line of the form index, two-character separator, command would have
length `1 + 2 + 2 = 5`. -/
theorem c7_two_char_separator_false :
    historyRun.snd = ["1   ls", "2   pwd", "3   history"] ∧
    ("1   ls" : String).length =
      ("1" : String).length + 3 + ("ls" : String).length ∧
    ("1   ls" : String).length ≠
      ("1" : String).length + 2 + ("ls" : String).length :=
  ⟨by decide, by decide, by decide⟩

/-- C7 amended: after `ls`, `pwd`, `history` from an empty history, the
`history` command prints exactly the three recorded commands at 1-based
indices 1, 2, 3, each line being the index, a literal three-character
separator `"   "`, and the raw command text. -/
theorem c7_history_three_space_lines :
    historyRun.snd =
      ["1" ++ "   " ++ "ls", "2" ++ "   " ++ "pwd", "3" ++ "   " ++ "history"] ∧
    historyRun.fst.command_history = ["ls", "pwd", "history"] :=
  ⟨by decide, by decide⟩

/-! ### Claim C8 -/

/-- C8: for every input line, `process_command` returns normally (it is a
total function into state-and-output, never a propagated exception), the raw
line is always appended to the history, and when the dispatch of a non-empty
line raises, the filesystem state is unchanged and the output is the
exception's message for `FileNotFoundError`, or the message behind an
`Error: ` prefix for every other exception. -/
theorem c8_process_command_total_catch (now : String) (st : ShellState)
    (command : String) :
    ∃ st2 out, process_command now st command = (st2, out) ∧
      st2.command_history = st.command_history ++ [command] ∧
      ∀ e, dispatch now
          (ShellState.mk st.vfs (st.command_history ++ [command]))
          (pySplitWs command) = .error e →
        st2.vfs = st.vfs ∧
        out = (match e with
          | .fileNotFound m => [m]
          | _ => ["Error: " ++ pyStr e]) := by
  by_cases hemp : (pySplitWs command).isEmpty
  · refine ⟨ShellState.mk st.vfs (st.command_history ++ [command]), [],
      by simp [process_command, hemp], rfl, ?_⟩
    intro e he
    rw [List.isEmpty_iff] at hemp
    rw [hemp] at he
    simp [dispatch] at he
  · cases hd : dispatch now
        (ShellState.mk st.vfs (st.command_history ++ [command]))
        (pySplitWs command) with
    | ok r =>
      refine ⟨r.fst, r.snd, by simp [process_command, hemp, hd], ?_, ?_⟩
      · have : dispatch now
            (ShellState.mk st.vfs (st.command_history ++ [command]))
            (pySplitWs command) = .ok (r.fst, r.snd) := by rw [hd]
        rw [dispatch_history this]
      · intro e he
        simp at he
    | error e =>
      cases e with
      | fileNotFound m =>
        refine ⟨ShellState.mk st.vfs (st.command_history ++ [command]), [m],
          by simp [process_command, hemp, hd], rfl, ?_⟩
        intro e2 he2
        injection he2 with h3
        subst h3
        exact ⟨rfl, rfl⟩
      | keyError k =>
        refine ⟨ShellState.mk st.vfs (st.command_history ++ [command]),
          ["Error: " ++ pyStr (.keyError k)],
          by simp [process_command, hemp, hd], rfl, ?_⟩
        intro e2 he2
        injection he2 with h3
        subst h3
        exact ⟨rfl, rfl⟩
      | typeError m =>
        refine ⟨ShellState.mk st.vfs (st.command_history ++ [command]),
          ["Error: " ++ pyStr (.typeError m)],
          by simp [process_command, hemp, hd], rfl, ?_⟩
        intro e2 he2
        injection he2 with h3
        subst h3
        exact ⟨rfl, rfl⟩
      | attributeError m =>
        refine ⟨ShellState.mk st.vfs (st.command_history ++ [command]),
          ["Error: " ++ pyStr (.attributeError m)],
          by simp [process_command, hemp, hd], rfl, ?_⟩
        intro e2 he2
        injection he2 with h3
        subst h3
        exact ⟨rfl, rfl⟩

/-- Witness for C8: a failing `cd` prints the exception's message and the
shell goes on. -/
theorem c8_process_command_total_catch_witness :
    (process_command "" shellStart "cd nowhere").snd =
      ["No such directory: nowhere"] := by
  obtain ⟨st2, out, h1, h2, h3⟩ :=
    c8_process_command_total_catch "" shellStart "cd nowhere"
  have hd : dispatch ""
      (ShellState.mk shellStart.vfs
        (shellStart.command_history ++ ["cd nowhere"]))
      (pySplitWs "cd nowhere") =
      .error (.fileNotFound ("No such directory: " ++ "nowhere")) := rfl
  have h4 := h3 _ hd
  rw [h1, h4.2]
  rfl

/-! ### Claim C9 -/

/-- C9: an input line whose whitespace split is empty is still appended
verbatim to the command history (the append precedes the emptiness check),
produces no output and changes nothing else. -/
theorem c9_blank_line_recorded (now : String) (st : ShellState)
    (command : String) (h : pySplitWs command = []) :
    process_command now st command =
      (ShellState.mk st.vfs (st.command_history ++ [command]), []) := by
  simp [process_command, h]

/-- Witness for C9: three spaces. -/
theorem c9_blank_line_recorded_witness :
    process_command "" shellStart "   " =
      (ShellState.mk shellStart.vfs (shellStart.command_history ++ ["   "]),
        []) :=
  c9_blank_line_recorded "" shellStart "   " rfl

/-! ### Claim C10 -/

/-- C10 counterexample: the claim's tail — after a successful `change_dir` of
a file name "the current path designates a non-directory node" — fails away
from the root.  In `glueFs`, from the reachable state `/d`, changing into the
file `f.txt` succeeds but glues the names into `/df.txt`, which resolves to
the unrelated root directory node `df.txt`. -/
theorem c10_file_cd_lands_on_directory :
    (VirtualFileSystem.mk "/" glueFs []).change_dir "d" =
      .ok (VirtualFileSystem.mk "/d" glueFs []) ∧
    (VirtualFileSystem.mk "/d" glueFs []).change_dir "f.txt" =
      .ok (VirtualFileSystem.mk "/df.txt" glueFs []) ∧
    walkParts (PyNode.dict glueFs) (splitOnSlash (stripSlashes "/df.txt")) =
      .ok (PyNode.dict []) :=
  ⟨rfl, rfl, rfl⟩

/-- C10 amended: `change_dir name` succeeds whenever `name` (other than
`".."`) appears anywhere in the current listing, file names included; and
when invoked from the root, the new current path resolves to the file's
`None` leaf — a non-directory node.  (Away from the root the missing
separator voids the resolution guarantee, see the counterexample.) -/
theorem c10_cd_file_succeeds (vfs : VirtualFileSystem)
    (listing : List String) (name : String)
    (hl : vfs.list_dir = .ok listing) (hm : name ∈ listing)
    (hne : name ≠ "..") (hsf : ∀ c ∈ name.data, (c == '/') = false)
    (hnn : name ≠ "") :
    vfs.change_dir name =
      .ok (VirtualFileSystem.mk
        (vfs.current_dir ++ stripSlashes ("/" ++ name)) vfs.fs
        vfs.files_content) ∧
    (vfs.current_dir = "/" → assocGet vfs.fs name = some PyNode.null →
      walkParts (PyNode.dict vfs.fs)
        (splitOnSlash (stripSlashes
          (vfs.current_dir ++ stripSlashes ("/" ++ name)))) =
        .ok PyNode.null) := by
  have h1 : stripSlashes ("/" ++ name) = name := stripSlashes_slash_append hsf
  constructor
  · simp only [VirtualFileSystem.change_dir, if_neg hne, hl]
    rw [if_pos hm]
  · intro hroot hfile
    rw [hroot, h1, h1, splitOnSlash_no_slash hsf]
    simp only [walkParts, if_neg hnn, hfile]

/-- Witness for C10's amended statement: changing into the root file
`f.txt`. -/
theorem c10_cd_file_succeeds_witness :
    (VirtualFileSystem.mk "/" fileOnlyFs []).change_dir "f.txt" =
      .ok (VirtualFileSystem.mk "/f.txt" fileOnlyFs []) ∧
    walkParts (PyNode.dict fileOnlyFs)
      (splitOnSlash (stripSlashes "/f.txt")) = .ok PyNode.null :=
  ⟨(c10_cd_file_succeeds (VirtualFileSystem.mk "/" fileOnlyFs [])
      ["f.txt"] "f.txt" rfl (by decide) (by decide) (by decide) (by decide)).1,
   (c10_cd_file_succeeds (VirtualFileSystem.mk "/" fileOnlyFs [])
      ["f.txt"] "f.txt" rfl (by decide) (by decide) (by decide)
      (by decide)).2 rfl rfl⟩

end ConfigDaev
